import Mathlib

/-!
Verification of the document ingestion pipeline of RAG-Tool-brAIn.

Shallow embedding of `backend/core/text_processor.py`,
`backend/core/db_handler.py` and `backend/core/google_drive.py`.
A Python `str` is modelled as a `List Char` of its code points; Python
`bytes` enter only through the results of the decode / library calls that
are applied to them, which are collected in an environment record.
-/

/-! ## Python string primitives -/

/-- The NUL character removed by `text.replace('\x00', '')`. -/
def nullChar : Char := Char.ofNat 0

/-- The character class of `re.sub(r'[\x00-\x08\x0B\x0C\x0E-\x1F\x7F-\x9F]', '', text)`
in `sanitize_text`: C0 controls except tab (0x09), newline (0x0A) and
carriage return (0x0D), plus DEL and the C1 controls. -/
def isRemovedCtrl (c : Char) : Bool :=
  c.toNat ≤ 8 || c.toNat == 11 || c.toNat == 12 ||
  (14 ≤ c.toNat && c.toNat ≤ 31) || (127 ≤ c.toNat && c.toNat ≤ 159)

/-- The characters Python `str.strip()` removes: the Unicode whitespace set. -/
def isPyWhitespace (c : Char) : Bool :=
  (9 ≤ c.toNat && c.toNat ≤ 13) || (28 ≤ c.toNat && c.toNat ≤ 31) ||
  c.toNat == 32 || c.toNat == 133 || c.toNat == 160 || c.toNat == 0x1680 ||
  (0x2000 ≤ c.toNat && c.toNat ≤ 0x200A) || c.toNat == 0x2028 ||
  c.toNat == 0x2029 || c.toNat == 0x202F || c.toNat == 0x205F || c.toNat == 0x3000

/-- Model of `re.sub(r' +', ' ', text)`: collapse each run of space characters to a
single space (all characters of a run are identical, so keeping the last
of each run is the same as keeping the first). -/
def collapseSpaces : List Char → List Char
  | [] => []
  | [c] => [c]
  | a :: b :: t =>
    if a = ' ' ∧ b = ' ' then collapseSpaces (b :: t) else a :: collapseSpaces (b :: t)

/-- Python `str.lstrip()`. -/
def pyLStrip (l : List Char) : List Char := l.dropWhile isPyWhitespace

/-- Python `str.rstrip()`. -/
def pyRStrip (l : List Char) : List Char := (l.reverse.dropWhile isPyWhitespace).reverse

/-- Python `str.strip()`. -/
def pyStrip (l : List Char) : List Char := pyRStrip (pyLStrip l)

/-- Function `sanitize_text` from `text_processor.py`: the `if not text` guard, the
NUL replace, the control-character removal, the space-run collapse and the
final strip, in source order. -/
def sanitize_text (text : List Char) : List Char :=
  if text = [] then []
  else pyStrip (collapseSpaces
    ((text.filter (fun c => !(c == nullChar))).filter (fun c => !(isRemovedCtrl c))))

/-! ## The chunking loop -/

/-- Clamp a Python slice bound to an index of a length-`L` string:
negative bounds count from the end, everything is clamped into `[0, L]`. -/
def pyIdx (L : Nat) (i : Int) : Nat :=
  if i < 0 then (i + L).toNat else min i.toNat L

/-- Python `s[i:j]` on a string of characters. -/
def pySlice (s : List Char) (i j : Int) : List Char :=
  (s.take (pyIdx s.length j)).drop (pyIdx s.length i)

/-- The `while start < text_length` loop of `chunk_text`, with explicit
fuel: `none` means the loop has not exited within `fuel` iterations.
Each iteration takes `end = min(start + chunk_size, text_length)`,
appends `text[start:end]`, and sets
`start = end - overlap if overlap > 0 else end` (an `Int`, since Python
integers go negative when `overlap` exceeds `end`). -/
def chunkLoop (t : List Char) (cs ov : Nat) : Nat → Int → List (List Char) → Option (List (List Char))
  | 0, _, _ => none
  | fuel + 1, start, acc =>
    if start < (t.length : Int) then
      chunkLoop t cs ov fuel
        (if 0 < ov then min (start + (cs : Int)) (t.length : Int) - (ov : Int)
         else min (start + (cs : Int)) (t.length : Int))
        (acc ++ [pySlice t start (min (start + (cs : Int)) (t.length : Int))])
    else some acc

/-- Function `chunk_text` from `text_processor.py`: sanitize, return `[]` on empty
sanitized text, else run the window loop from offset 0. -/
def chunk_text (fuel : Nat) (text : List Char) (cs ov : Nat) : Option (List (List Char)) :=
  if sanitize_text text = [] then some []
  else chunkLoop (sanitize_text text) cs ov fuel 0 []

/-- Reference splitting of a list into windows of `cs` characters,
which the zero-overlap loop is proved to compute. -/
def chunksOf (cs : Nat) (l : List Char) : List (List Char) :=
  if l = [] ∨ cs = 0 then [] else l.take cs :: chunksOf cs (l.drop cs)
termination_by l.length
decreasing_by
  rename_i h
  push_neg at h
  simp only [List.length_drop]
  have h1 : l.length ≠ 0 := fun hl => h.1 (List.length_eq_zero.mp hl)
  omega

/-! ## The embedding client

`create_embeddings` is generic in the vector type `α` produced by the
provider; the provider call `client.embeddings.create(...)` is modelled by
a function argument, and `get_openai_client`'s
`raise ValueError("OPENAI_API_KEY not found ...")` by the `apiKey` option. -/

/-- The error raised by `get_openai_client` when `OPENAI_API_KEY` is unset. -/
inductive EmbedError where
  | missingApiKey
deriving DecidableEq

/-- Function `create_embeddings` from `text_processor.py`: early `[]` on empty input,
sanitize every text, drop the ones that became empty, early `[]` when
nothing is left, otherwise obtain the client (raising on a missing key)
and send the filtered batch to the provider. -/
def create_embeddings {α : Type} (apiKey : Option (List Char))
    (provider : List (List Char) → List α) (texts : List (List Char)) :
    Except EmbedError (List α) :=
  if texts = [] then Except.ok []
  else if ((texts.map sanitize_text).filter (fun t => !(t.isEmpty))) = [] then Except.ok []
  else
    match apiKey with
    | none => Except.error EmbedError.missingApiKey
    | some _ => Except.ok (provider ((texts.map sanitize_text).filter (fun t => !(t.isEmpty))))

/-! ## The format extractor

`extract_text_from_file` and its helpers read the file bytes only through
decoding and library calls.  The per-file outcomes of those calls are the
fields of `ExtractEnv`; an `Option` is `none` when the library call raised
(the source catches it), a function field is the pure text transformation
the library applies.  Totality of the Lean functions is the "never raises
past the boundary" shape of the source. -/

/-- Outcome of the `word/document.xml` path of `extract_text_from_docx`. -/
inductive DocxXmlOutcome where
  | raised                               -- `except Exception` branch
  | noDocumentXml                        -- container has no `word/document.xml`
  | textNodes (ts : List (List Char))    -- the truthy `w:t` text nodes, in order
deriving DecidableEq

/-- The per-file outcomes of every decode / library call made by the
extraction branches. -/
structure ExtractEnv where
  /-- Flag `PYPDF_AVAILABLE` -/
  pypdfAvailable : Bool
  /-- Flag `MARKDOWN_CONVERSION_AVAILABLE` -/
  mdAvailable : Bool
  /-- Result of `file_content.decode('utf-8', errors='replace')` (total, never raises) -/
  decodeReplace : List Char
  /-- Result of `file_content.decode('utf-8', errors='ignore')` (total, never raises) -/
  decodeIgnore : List Char
  /-- per-page `page.extract_text()` results via `pypdf`; `none` = raised -/
  pypdfPages : Option (List (List Char))
  /-- result of the raw-XML docx path -/
  docxXml : DocxXmlOutcome
  /-- Value of `mammoth.convert_to_html(...)`; `none` = raised -/
  mammothHtml : Option (List Char)
  /-- the `re.sub` that removes `img` tags with data URIs in `convert_docx_to_markdown` -/
  stripDataImgs : List Char → List Char
  /-- Model of `markdownify.markdownify` with the docx call-site options -/
  markdownifyDocx : List Char → List Char
  /-- Model of `markdownify.markdownify(html, heading_style ATX)` at the Docs/Slides call sites -/
  markdownifyATX : List Char → List Char
  /-- Model of the tag-stripping `re.sub` over angle-bracket tags -/
  stripTags : List Char → List Char
  /-- per-page `extract_text()` via `pdfplumber` in `is_text_based_pdf`; `none` = raised -/
  plumberPages : Option (List (List Char))
  /-- Pair of page texts and link strings via `pdfplumber` in `convert_pdf_to_markdown`; `none` = raised -/
  plumberConvert : Option (List (List Char) × List (List Char))

/-- Model of joining parts with a single space separator. -/
def joinSpace (parts : List (List Char)) : List Char :=
  List.intercalate (' ' :: []) parts

/-- Function `extract_text_from_docx`: parse the main document XML part and join the
text nodes with spaces; missing part yields `""`; an exception falls back
to the lenient byte decode. -/
def extract_text_from_docx (env : ExtractEnv) : List Char :=
  match env.docxXml with
  | DocxXmlOutcome.textNodes ts => sanitize_text (joinSpace ts)
  | DocxXmlOutcome.noDocumentXml => []
  | DocxXmlOutcome.raised => sanitize_text env.decodeIgnore

/-- Function `extract_text_from_pdf`: empty without `pypdf`, else join the truthy
page texts with spaces and sanitize; an exception yields `""`. -/
def extract_text_from_pdf (env : ExtractEnv) : List Char :=
  if !env.pypdfAvailable then []
  else
    match env.pypdfPages with
    | none => []
    | some pages => sanitize_text (joinSpace (pages.filter (fun p => !(p.isEmpty))))

/-- Function `is_text_based_pdf`: `True` without the markdown libraries, `True` on an
exception, `False` on a zero-page PDF, else whether the concatenated text
of the first `min 3` pages has more than 100 characters after strip. -/
def is_text_based_pdf (env : ExtractEnv) : Bool :=
  if !env.mdAvailable then true
  else
    match env.plumberPages with
    | none => true
    | some pages =>
      if pages.length = 0 then false
      else decide (100 < (pyStrip (pages.take 3).flatten).length)

/-- Function `convert_pdf_to_markdown`: join the truthy page texts with spaces,
append the harvested link lines, return `none` when empty or shorter than
50 characters after strip, else the sanitized text. -/
def convert_pdf_to_markdown (env : ExtractEnv) : Option (List Char) :=
  if !env.mdAvailable then none
  else
    match env.plumberConvert with
    | none => none
    | some (pageTexts, links) =>
      let allText := joinSpace (pageTexts.filter (fun p => !(p.isEmpty)))
      let withLinks :=
        if links = [] then allText
        else allText ++ ('\n' :: '\n' :: []) ++ List.intercalate ('\n' :: []) links
      if withLinks = [] ∨ (pyStrip withLinks).length < 50 then none
      else some (sanitize_text withLinks)

/-- Function `convert_docx_to_markdown`: mammoth to HTML, give up on short HTML,
strip data-URI images, markdownify, sanitize. -/
def convert_docx_to_markdown (env : ExtractEnv) : Option (List Char) :=
  if !env.mdAvailable then none
  else
    match env.mammothHtml with
    | none => none
    | some html =>
      if html = [] ∨ (pyStrip html).length < 50 then none
      else some (sanitize_text (env.markdownifyDocx (env.stripDataImgs html)))

/-- Whether `needle` occurs as a contiguous substring of `hay` (Python `in`). -/
def hasSubstring (hay needle : List Char) : Bool :=
  needle.isPrefixOf hay ||
    match hay with
    | [] => false
    | _ :: t => hasSubstring t needle

def mimePdf : List Char := "application/pdf".toList
def mimeDocx : List Char :=
  "application/vnd.openxmlformats-officedocument.wordprocessingml.document".toList
def mimeMsword : List Char := "application/msword".toList
def mimeHtml : List Char := "text/html".toList
def mimeCsv : List Char := "text/csv".toList
def mimeGDoc : List Char := "application/vnd.google-apps.document".toList
def mimeGSheet : List Char := "application/vnd.google-apps.spreadsheet".toList
def mimeGSlides : List Char := "application/vnd.google-apps.presentation".toList
def mimeMarkdown : List Char := "text/markdown".toList
def mimeXMarkdown : List Char := "text/x-markdown".toList
def extDocx : List Char := ".docx".toList
def extDoc : List Char := ".doc".toList
def extPdfDot : List Char := ".pdf".toList
def extTxt : List Char := ".txt".toList
def extHtml : List Char := ".html".toList
def extCsv : List Char := ".csv".toList
def extMd : List Char := ".md".toList
def textSlash : List Char := "text/".toList
def imageStr : List Char := "image".toList

/-- Function `convert_to_markdown_with_links`: route DOCX to the mammoth conversion,
PDF through the text-based gate to the pdfplumber conversion, `.doc` and
everything else to `None`. -/
def convert_to_markdown_with_links (env : ExtractEnv) (mime fileName : List Char) :
    Option (List Char) :=
  if !env.mdAvailable then none
  else if mime = mimeDocx ∨ extDocx.isSuffixOf fileName then convert_docx_to_markdown env
  else if mime = mimePdf ∨ extPdfDot.isSuffixOf fileName then
    if is_text_based_pdf env then convert_pdf_to_markdown env else none
  else if mime = mimeMsword ∨ extDoc.isSuffixOf fileName then none
  else none

/-- Function `extract_text_from_file`: the content-type dispatch, in source branch
order, followed by the unconditional final `sanitize_text`. -/
def extract_text_from_file (env : ExtractEnv) (mime fileName : List Char) : List Char :=
  sanitize_text
    (if hasSubstring mime mimePdf then extract_text_from_pdf env
     else if mime = mimeDocx ∨ extDocx.isSuffixOf fileName then
       match convert_to_markdown_with_links env mime fileName with
       | some md => if md ≠ [] ∧ 50 < (pyStrip md).length then md else extract_text_from_docx env
       | none => extract_text_from_docx env
     else if textSlash.isPrefixOf mime ∨ extTxt.isSuffixOf fileName then env.decodeReplace
     else if mime = mimeHtml ∨ extHtml.isSuffixOf fileName then env.stripTags env.decodeReplace
     else if mime = mimeCsv ∨ extCsv.isSuffixOf fileName then env.decodeReplace
     else if mime = mimeGDoc then
       if env.decodeReplace ≠ [] ∧ 50 < (pyStrip env.decodeReplace).length then
         if env.mdAvailable then sanitize_text (env.markdownifyATX env.decodeReplace)
         else sanitize_text (env.stripTags env.decodeReplace)
       else env.decodeReplace
     else if mime = mimeGSheet then env.decodeReplace
     else if mime = mimeGSlides then
       if env.mdAvailable ∧ env.decodeReplace ≠ [] then
         sanitize_text (env.markdownifyATX env.decodeReplace)
       else sanitize_text (env.stripTags env.decodeReplace)
     else if mime = mimeMarkdown ∨ mime = mimeXMarkdown ∨ extMd.isSuffixOf fileName then
       env.decodeReplace
     else if imageStr.isPrefixOf mime then fileName
     else env.decodeReplace)

/-! ## The database handler

`db_handler.py` manipulates three Supabase tables; the state is modelled
as three lists of rows, and each handler method as a pure state transform
along its no-I/O-failure path (every Supabase call that the source wraps in
`try` is taken to succeed; the swallowed-exception branches are noted at
each definition).  Embedding vectors are an arbitrary type `α`. -/

/-- One row of the `documents` table: `content`, `metadata` fields, `embedding`. -/
structure ChunkRow (α : Type) where
  content : List Char
  file_id : List Char
  file_url : List Char
  file_title : List Char
  mime_type : Option (List Char)
  chunk_index : Nat
  /-- the optional base64 `file_contents` metadata entry -/
  file_contents : Option (List Char)
  embedding : α

/-- One row of the `document_metadata` table. -/
structure MetaRow where
  id : List Char
  title : List Char
  url : List Char
  schema : Option (List Char)
deriving DecidableEq

/-- The three collections owned by the storage collaborator.
`document_rows` rows are `(dataset_id, row_data)` pairs. -/
structure DBState (α : Type) where
  documents : List (ChunkRow α)
  document_rows : List (List Char × List Char)
  document_metadata : List MetaRow

/-- Function `delete_document_by_file_id`: delete the chunk rows whose metadata
`file_id` matches, the `document_rows` with that `dataset_id`, and the
`document_metadata` row with that id.  The source returns `True` even when
the latter two deletes raise (their exceptions are swallowed); on the
modelled no-failure path all three succeed. -/
def delete_document_by_file_id {α : Type} (fileId : List Char) (st : DBState α) :
    Bool × DBState α :=
  (true,
    { documents := st.documents.filter (fun r => !(r.file_id = fileId : Bool))
      document_rows := st.document_rows.filter (fun r => !(r.1 = fileId : Bool))
      document_metadata := st.document_metadata.filter (fun m => !(m.id = fileId : Bool)) })

/-- Function `check_document_exists`: a chunk row with this `file_id`, or a
`document_metadata` row with this id. -/
def check_document_exists {α : Type} (fileId : List Char) (st : DBState α) : Bool :=
  st.documents.any (fun r => r.file_id = fileId) ||
    st.document_metadata.any (fun m => m.id = fileId)

/-- Function `insert_or_update_document_metadata`: update the row if one with this
id exists (leaving the stored `schema` alone when none is supplied, since
the update payload then has no schema key), else insert a new row. -/
def insert_or_update_document_metadata {α : Type} (fileId title url : List Char)
    (schema : Option (List Char)) (st : DBState α) : Bool × DBState α :=
  if st.document_metadata.any (fun m => m.id = fileId) then
    (true,
      { st with
        document_metadata := st.document_metadata.map (fun m =>
          if m.id = fileId then
            { id := fileId, title := title, url := url
              schema := match schema with | some s => some s | none => m.schema }
          else m) })
  else
    (true,
      { st with
        document_metadata :=
          st.document_metadata ++ [{ id := fileId, title := title, url := url, schema := schema }] })

/-- The rows `insert_document_chunks` builds: one per `(chunk, embedding)`
pair with `chunk_index` equal to its position. -/
def buildChunkRows {α : Type} (chunks : List (List Char)) (embeddings : List α)
    (fileId fileUrl fileTitle : List Char) (mime : Option (List Char))
    (fileContents : Option (List Char)) : List (ChunkRow α) :=
  (chunks.zip embeddings).enum.map (fun p =>
    { content := p.2.1
      file_id := fileId
      file_url := fileUrl
      file_title := fileTitle
      mime_type := mime
      chunk_index := p.1
      file_contents := fileContents
      embedding := p.2.2 })

/-- Function `insert_document_chunks`: raise (caught, `False`, nothing written) on a
chunks/embeddings length mismatch, else insert one row per pair. -/
def insert_document_chunks {α : Type} (chunks : List (List Char)) (embeddings : List α)
    (fileId fileUrl fileTitle : List Char) (mime : Option (List Char))
    (fileContents : Option (List Char)) (st : DBState α) : Bool × DBState α :=
  if chunks.length ≠ embeddings.length then (false, st)
  else
    (true,
      { st with
        documents := st.documents ++
          buildChunkRows chunks embeddings fileId fileUrl fileTitle mime fileContents })

/-- Test `if mime_type and mime_type.startswith("image")`. -/
def isImageMime (mime : Option (List Char)) : Bool :=
  match mime with
  | some m => imageStr.isPrefixOf m
  | none => false

/-- Function `process_file_for_rag`: delete existing records, upsert metadata, chunk
with the configured size/overlap, abort (`False`) on zero chunks, embed,
abort on a raised configuration error or zero embeddings, then insert the
chunk rows (with the file bytes in metadata for images).  The result is
`none` when the chunking loop has not terminated within `fuel` iterations
(the call then never returns). -/
def process_file_for_rag {α : Type} (apiKey : Option (List Char))
    (provider : List (List Char) → List α) (fuel : Nat)
    (fileContent : Option (List Char)) (text fileId fileUrl fileTitle : List Char)
    (mime : Option (List Char)) (cs ov : Nat) (st : DBState α) :
    Option (Bool × DBState α) :=
  let st1 := (delete_document_by_file_id fileId st).2
  let meta := insert_or_update_document_metadata fileId fileTitle fileUrl none st1
  if !meta.1 then some (false, meta.2)
  else
    match chunk_text fuel text cs ov with
    | none => none
    | some chunks =>
      if chunks = [] then some (false, meta.2)
      else
        match create_embeddings apiKey provider chunks with
        | Except.error _ => some (false, meta.2)
        | Except.ok embeddings =>
          if embeddings.isEmpty then some (false, meta.2)
          else if isImageMime mime then
            some (insert_document_chunks chunks embeddings fileId fileUrl fileTitle mime
              fileContent meta.2)
          else
            some (insert_document_chunks chunks embeddings fileId fileUrl fileTitle mime
              none meta.2)

/-! ## The Drive watcher: trashed-file detection and cleanup

From `google_drive.py`.  The Drive listing result of the `trashed=true`
query is part of the watcher state (`driveTrashed`, pairs of id and name);
`known_files` is the id → modifiedTime cache. -/

structure WatcherState (α : Type) where
  db : DBState α
  known_files : List (List Char × List Char)
  driveTrashed : List (List Char × List Char)

/-- Function `detect_trashed_files`: the ids of the trashed listing that
`check_document_exists` confirms are present in storage. -/
def detect_trashed_files {α : Type} (w : WatcherState α) : List (List Char) :=
  (w.driveTrashed.map Prod.fst).filter (fun fid => check_document_exists fid w.db)

/-- The `for file_id in trashed_file_ids` loop of `cleanup_trashed_files`:
delete each file's records, drop its `known_files` entry, count. -/
def cleanupLoop {α : Type} (ids : List (List Char)) (w : WatcherState α)
    (cleaned errs : Nat) : (Nat × Nat) × WatcherState α :=
  match ids with
  | [] => ((cleaned, errs), w)
  | fid :: rest =>
    let d := delete_document_by_file_id fid w.db
    if d.1 then
      cleanupLoop rest
        { w with db := d.2, known_files := w.known_files.filter (fun p => !(p.1 = fid : Bool)) }
        (cleaned + 1) errs
    else cleanupLoop rest w cleaned (errs + 1)

/-- Function `cleanup_trashed_files`: detect, return `(0, 0)` immediately when
nothing is found, else run the per-id cleanup loop. -/
def cleanup_trashed_files {α : Type} (w : WatcherState α) : (Nat × Nat) × WatcherState α :=
  let ids := detect_trashed_files w
  if ids = [] then ((0, 0), w)
  else cleanupLoop ids w 0 0

/-! ## Normalizer lemmas: `sanitize_text` is idempotent -/

/-- Adjacent characters that are not both spaces: the invariant the
space-collapsing pass establishes. -/
def noRunOfSpaces (a b : Char) : Prop := ¬(a = ' ' ∧ b = ' ')

theorem mem_collapseSpaces {c : Char} : ∀ {l : List Char}, c ∈ collapseSpaces l → c ∈ l
  | [], h => by simp [collapseSpaces] at h
  | [_], h => by simpa [collapseSpaces] using h
  | a :: b :: t, h => by
    rw [collapseSpaces] at h
    by_cases hab : a = ' ' ∧ b = ' '
    · rw [if_pos hab] at h
      exact List.mem_cons_of_mem a (mem_collapseSpaces h)
    · rw [if_neg hab] at h
      rcases List.mem_cons.mp h with h | h
      · exact h ▸ List.mem_cons_self a _
      · exact List.mem_cons_of_mem a (mem_collapseSpaces h)

theorem collapseSpaces_head_of_ne (b : Char) (t : List Char) (hb : b ≠ ' ') :
    (collapseSpaces (b :: t)).head? = some b := by
  cases t with
  | nil => rfl
  | cons c r =>
    rw [collapseSpaces, if_neg (fun hc => hb hc.1)]
    rfl

theorem chain'_collapseSpaces : ∀ l : List Char, List.Chain' noRunOfSpaces (collapseSpaces l)
  | [] => by simp [collapseSpaces]
  | [c] => by simp [collapseSpaces]
  | a :: b :: t => by
    rw [collapseSpaces]
    by_cases hab : a = ' ' ∧ b = ' '
    · rw [if_pos hab]
      exact chain'_collapseSpaces (b :: t)
    · rw [if_neg hab]
      refine List.chain'_cons'.mpr ⟨?_, chain'_collapseSpaces (b :: t)⟩
      intro y hy
      by_cases ha : a = ' '
      · have hb : b ≠ ' ' := fun hb => hab ⟨ha, hb⟩
        rw [collapseSpaces_head_of_ne b t hb] at hy
        cases hy
        exact fun hc => hb hc.2
      · exact fun hc => ha hc.1

theorem collapseSpaces_eq_self : ∀ {l : List Char}, List.Chain' noRunOfSpaces l →
    collapseSpaces l = l
  | [], _ => rfl
  | [_], _ => rfl
  | a :: b :: t, h => by
    obtain ⟨hhead, htail⟩ := List.chain'_cons'.mp h
    have hab : ¬(a = ' ' ∧ b = ' ') := hhead b rfl
    rw [collapseSpaces, if_neg hab, collapseSpaces_eq_self htail]

theorem pyRStrip_eq (l : List Char) : pyRStrip l = List.rdropWhile isPyWhitespace l := rfl

theorem pyStrip_within (l : List Char) : pyStrip l <:+: l := by
  have h1 : pyStrip l <+: l.dropWhile isPyWhitespace := by
    rw [pyStrip, pyRStrip_eq]
    exact List.rdropWhile_prefix _ _
  exact h1.isInfix.trans (List.dropWhile_suffix isPyWhitespace).isInfix

theorem mem_pyStrip {c : Char} {l : List Char} (h : c ∈ pyStrip l) : c ∈ l :=
  (pyStrip_within l).sublist.subset h

theorem pyLStrip_pyStrip (l : List Char) : pyLStrip (pyStrip l) = pyStrip l := by
  rcases hs : pyStrip l with _ | ⟨c, rest⟩
  · rfl
  · have hpre : (c :: rest) <+: l.dropWhile isPyWhitespace := by
      rw [← hs, pyStrip, pyRStrip_eq]
      exact List.rdropWhile_prefix _ _
    obtain ⟨tail, htail⟩ := hpre
    have hne : l.dropWhile isPyWhitespace ≠ [] := by
      rw [← htail]; simp
    have hc : isPyWhitespace ((l.dropWhile isPyWhitespace).head hne) = false :=
      List.head_dropWhile_not isPyWhitespace l hne
    have hhead : (l.dropWhile isPyWhitespace).head? = some c := by
      rw [← htail]; rfl
    rw [List.head?_eq_head hne] at hhead
    rw [Option.some_inj.mp hhead] at hc
    rw [pyLStrip, List.dropWhile_cons, hc]
    simp

theorem pyStrip_idem (l : List Char) : pyStrip (pyStrip l) = pyStrip l := by
  rw [pyStrip, pyLStrip_pyStrip, pyRStrip_eq]
  rw [pyStrip, pyRStrip_eq]
  exact List.rdropWhile_idempotent _ _

theorem sanitize_text_def (text : List Char) : sanitize_text text =
    pyStrip (collapseSpaces
      ((text.filter (fun c => !(c == nullChar))).filter (fun c => !(isRemovedCtrl c)))) := by
  rw [sanitize_text]
  rcases h : text with _ | _
  · rfl
  · rw [if_neg (by simp)]

theorem mem_sanitize_text {c : Char} {text : List Char} (h : c ∈ sanitize_text text) :
    (!(c == nullChar)) = true ∧ (!(isRemovedCtrl c)) = true := by
  rw [sanitize_text_def] at h
  have h2 := mem_collapseSpaces (mem_pyStrip h)
  exact ⟨(List.mem_filter.mp (List.mem_filter.mp h2).1).2, (List.mem_filter.mp h2).2⟩

/-- Shared idempotence fact: applying `sanitize_text` twice equals applying
it once.  The second pass finds nothing to do: the filters keep everything
that survived the first pass, the space runs are already collapsed, and the
ends are already stripped. -/
theorem sanitize_idem (x : List Char) : sanitize_text (sanitize_text x) = sanitize_text x := by
  rw [sanitize_text_def (sanitize_text x)]
  rw [List.filter_eq_self.mpr (fun c hc => (mem_sanitize_text hc).1)]
  rw [List.filter_eq_self.mpr (fun c hc => (mem_sanitize_text hc).2)]
  have hchain : List.Chain' noRunOfSpaces (sanitize_text x) := by
    rw [sanitize_text_def]
    exact List.Chain'.infix (chain'_collapseSpaces _) (pyStrip_within _)
  rw [collapseSpaces_eq_self hchain]
  rw [sanitize_text_def x]
  exact pyStrip_idem _

/-- When no character of `l` is removed, collapsed or stripped by any pass,
`sanitize_text` is the identity. -/
theorem chain'_of_forall_left {R : Char → Char → Prop} :
    ∀ {l : List Char}, (∀ a ∈ l, ∀ b, R a b) → List.Chain' R l
  | [], _ => List.chain'_nil
  | a :: t, h => List.chain'_cons'.mpr
      ⟨fun y _ => h a (List.mem_cons_self a t) y,
       chain'_of_forall_left (fun x hx b => h x (List.mem_cons_of_mem a hx) b)⟩

theorem dropWhile_eq_self_of_forall (p : Char → Bool) (l : List Char)
    (h : ∀ c ∈ l, p c = false) : l.dropWhile p = l := by
  cases l with
  | nil => rfl
  | cons a t =>
    rw [List.dropWhile_cons, h a (List.mem_cons_self a t)]
    simp

theorem sanitize_eq_self_of (l : List Char)
    (h : ∀ c ∈ l, (c == nullChar) = false ∧ isRemovedCtrl c = false ∧
      isPyWhitespace c = false ∧ c ≠ ' ') : sanitize_text l = l := by
  rw [sanitize_text_def]
  rw [List.filter_eq_self.mpr
    (fun c hc => by rw [(h c (List.mem_filter.mp hc).1).2.1]; rfl)]
  rw [List.filter_eq_self.mpr (fun c hc => by rw [(h c hc).1]; rfl)]
  rw [collapseSpaces_eq_self
    (chain'_of_forall_left (fun a ha b => fun hab => (h a ha).2.2.2 hab.1))]
  rw [pyStrip, pyLStrip, dropWhile_eq_self_of_forall _ _ (fun c hc => (h c hc).2.2.1)]
  rw [pyRStrip, dropWhile_eq_self_of_forall _ _
    (fun c hc => (h c (List.mem_reverse.mp hc)).2.2.1)]
  exact List.reverse_reverse l

/-! ## Chunker lemmas: the zero-overlap loop computes `chunksOf`,
and any positive overlap makes the loop diverge -/

theorem chunksOf_flatten (cs : Nat) (hcs : cs ≠ 0) (l : List Char) :
    (chunksOf cs l).flatten = l := by
  induction l using chunksOf.induct cs with
  | case1 l h =>
    rcases h with h | h
    · simp [chunksOf, h]
    · exact absurd h hcs
  | case2 l h ih =>
    rw [chunksOf, if_neg h]
    simp [ih, List.take_append_drop]

theorem chunksOf_mem_length (cs : Nat) (l : List Char) :
    ∀ c ∈ chunksOf cs l, c.length ≤ cs := by
  induction l using chunksOf.induct cs with
  | case1 l h =>
    intro c hc
    rw [chunksOf, if_pos h] at hc
    simp at hc
  | case2 l h ih =>
    intro c hc
    rw [chunksOf, if_neg h] at hc
    rcases List.mem_cons.mp hc with hc | hc
    · rw [hc, List.length_take]
      exact min_le_left _ _
    · exact ih c hc

theorem chunksOf_length (cs : Nat) (hcs : 0 < cs) (l : List Char) :
    (chunksOf cs l).length = (l.length + cs - 1) / cs := by
  induction l using chunksOf.induct cs with
  | case1 l h =>
    rcases h with h | h
    · rw [chunksOf, if_pos (Or.inl h), h]
      simp [Nat.div_eq_of_lt (by omega : cs - 1 < cs)]
    · omega
  | case2 l h ih =>
    push_neg at h
    have hne : l.length ≠ 0 := fun hl => h.1 (List.length_eq_zero.mp hl)
    rw [chunksOf, if_neg (by push_neg; exact h)]
    rw [List.length_cons, ih, List.length_drop]
    rcases Nat.lt_or_ge cs l.length with hlt | hge
    · have h1 : l.length - cs + cs - 1 = l.length - 1 := by omega
      have h2 : l.length + cs - 1 = l.length - 1 + cs := by omega
      rw [h1, h2, Nat.add_div_right _ hcs]
    · have h1 : l.length - cs = 0 := by omega
      rw [h1]
      have h2 : (0 + cs - 1) / cs = 0 := Nat.div_eq_of_lt (by omega)
      rw [h2]
      have h3 : (l.length + cs - 1) / cs = 1 := by
        apply Nat.div_eq_of_lt_le <;> omega
      omega

theorem pySlice_coe (s : List Char) (a b : Nat) (hab : a ≤ b) (hb : b ≤ s.length) :
    pySlice s (a : Int) (b : Int) = (s.drop a).take (b - a) := by
  have ha : pyIdx s.length (a : Int) = a := by
    rw [pyIdx, if_neg (by omega)]
    simp [Nat.min_eq_left (le_trans hab hb)]
  have hbi : pyIdx s.length (b : Int) = b := by
    rw [pyIdx, if_neg (by omega)]
    simp [Nat.min_eq_left hb]
  rw [pySlice, ha, hbi, List.drop_take]

theorem chunkLoop_ov0 (t : List Char) (cs : Nat) (hcs : 0 < cs) :
    ∀ (fuel start : Nat) (acc : List (List Char)), t.length - start < fuel →
      chunkLoop t cs 0 fuel (start : Int) acc = some (acc ++ chunksOf cs (t.drop start)) := by
  intro fuel
  induction fuel with
  | zero => intro start acc h; omega
  | succ fuel ih =>
    intro start acc h
    by_cases hst : start < t.length
    · have hguard : (start : Int) < (t.length : Int) := by exact_mod_cast hst
      rw [chunkLoop, if_pos hguard]
      rw [if_neg (by omega)]
      have hmin : min ((start : Int) + (cs : Int)) (t.length : Int) =
          ((min (start + cs) t.length : Nat) : Int) := by push_cast; ring_nf
      rw [hmin]
      have hslice : pySlice t (start : Int) ((min (start + cs) t.length : Nat) : Int) =
          (t.drop start).take cs := by
        rw [pySlice_coe t start _ (by omega) (min_le_right _ _)]
        rw [List.take_eq_take]
        simp [List.length_drop]
        omega
      rw [hslice]
      rw [ih (min (start + cs) t.length) (acc ++ [(t.drop start).take cs]) (by omega)]
      have hdropne : t.drop start ≠ [] := by
        rw [Ne, List.drop_eq_nil_iff]
        omega
      have hstep : chunksOf cs (t.drop start) =
          (t.drop start).take cs :: chunksOf cs (t.drop (min (start + cs) t.length)) := by
        rw [chunksOf, if_neg (by push_neg; exact ⟨hdropne, by omega⟩)]
        congr 1
        rw [List.drop_drop]
        congr 1
        rcases le_or_lt (start + cs) t.length with hle | hlt
        · rw [Nat.min_eq_left hle, Nat.add_comm]
        · rw [Nat.min_eq_right (le_of_lt hlt)]
          rw [List.drop_eq_nil_iff.mpr (by omega), List.drop_eq_nil_iff.mpr (by omega)]
      rw [hstep]
      simp
    · rw [chunkLoop, if_neg (by exact_mod_cast hst)]
      rw [List.drop_eq_nil_iff.mpr (by omega)]
      rw [chunksOf, if_pos (Or.inl rfl)]
      simp

/-- For `overlap = 0` and `chunk_size > 0` the loop terminates within
`length + 1` iterations and produces exactly the `chunksOf` windows of the
sanitized text. -/
theorem chunk_text_ov0_eq (text : List Char) (cs fuel : Nat) (hcs : 0 < cs)
    (hfuel : (sanitize_text text).length < fuel) :
    chunk_text fuel text cs 0 = some (chunksOf cs (sanitize_text text)) := by
  rw [chunk_text]
  by_cases h : sanitize_text text = []
  · rw [if_pos h, h, chunksOf, if_pos (Or.inl rfl)]
  · rw [if_neg h]
    have h0 : (0 : Int) = ((0 : Nat) : Int) := rfl
    rw [h0, chunkLoop_ov0 (sanitize_text text) cs hcs fuel 0 [] (by omega)]
    simp

/-- Any state of the loop at which the advance step maps `start` to itself
while the loop guard still holds is a fixed point: from it the loop never
exits, whatever the fuel. -/
theorem chunkLoop_stuck (t : List Char) (cs ov : Nat) (start : Int)
    (hguard : start < (t.length : Int))
    (hfix : (if 0 < ov then min (start + (cs : Int)) (t.length : Int) - (ov : Int)
             else min (start + (cs : Int)) (t.length : Int)) = start) :
    ∀ fuel acc, chunkLoop t cs ov fuel start acc = none := by
  intro fuel
  induction fuel with
  | zero => intro acc; rfl
  | succ fuel ih =>
    intro acc
    rw [chunkLoop, if_pos hguard, hfix]
    exact ih _

/-- From offset 0 on the two-character text, the `chunk_size = 2`,
`overlap = 1` loop reaches the fixed point `start = 1` after one window
and then never exits. -/
theorem chunk_text_ab_2_1_none : ∀ fuel, chunk_text fuel ('a' :: 'b' :: []) 2 1 = none := by
  intro fuel
  rw [chunk_text]
  have hs : sanitize_text ('a' :: 'b' :: []) = 'a' :: 'b' :: [] := by decide
  rw [hs]
  rw [if_neg (by decide)]
  cases fuel with
  | zero => rfl
  | succ n =>
    rw [chunkLoop, if_pos (by decide)]
    have harg : (if 0 < 1 then min ((0 : Int) + (2 : Nat)) (('a' :: 'b' :: []).length : Int) -
        ((1 : Nat) : Int) else min ((0 : Int) + (2 : Nat)) (('a' :: 'b' :: []).length : Int)) =
        (1 : Int) := by decide
    rw [harg]
    exact chunkLoop_stuck ('a' :: 'b' :: []) 2 1 1 (by decide) (by decide) n _

/-! ## Claim theorems for the chunker -/

/-- C1: the claim asserts termination of the chunk loop for every
`overlap ≥ 0`; the code diverges for `chunk_size = 1`, `overlap = 1` on
the sanitized text `"ab"`: the advance step `start = end - overlap`
returns to `start = 0` every iteration, so no amount of fuel makes the
loop exit. -/
theorem chunk_text_diverges_overlap_eq_size :
    ∀ fuel, chunk_text fuel ('a' :: 'b' :: []) 1 1 = none := by
  intro fuel
  rw [chunk_text]
  have hs : sanitize_text ('a' :: 'b' :: []) = 'a' :: 'b' :: [] := by decide
  rw [hs]
  rw [if_neg (by decide)]
  exact chunkLoop_stuck ('a' :: 'b' :: []) 1 1 0 (by decide) (by decide) fuel []

/-- C2 counterexample: for `overlap = 1 ∈ [0, chunk_size)` with
`chunk_size = 2` on the text `"ab"`, the chunking operation never returns
at all (the loop sticks at `start = text_length - overlap`), so no chunk
list — let alone one of the claimed count — is produced. -/
theorem chunk_text_overlap_pos_no_result :
    ¬ ∃ fuel chunks, chunk_text fuel ('a' :: 'b' :: []) 2 1 = some chunks := by
  rintro ⟨fuel, chunks, h⟩
  rw [chunk_text_ab_2_1_none fuel] at h
  exact Option.noConfusion h

/-- C2 (amended to `overlap = 0`, the only terminating regime): with
`chunk_size > 0` and enough fuel, chunking returns windows that
concatenate to the sanitized input text, each of length at most
`chunk_size`, and there are `⌈length / chunk_size⌉` of them. -/
theorem chunk_text_ov0_correct (text : List Char) (cs fuel : Nat) (hcs : 0 < cs)
    (hfuel : (sanitize_text text).length < fuel) :
    ∃ chunks, chunk_text fuel text cs 0 = some chunks ∧
      chunks.flatten = sanitize_text text ∧
      (∀ c ∈ chunks, c.length ≤ cs) ∧
      chunks.length = ((sanitize_text text).length + cs - 1) / cs :=
  ⟨chunksOf cs (sanitize_text text),
   chunk_text_ov0_eq text cs fuel hcs hfuel,
   chunksOf_flatten cs (by omega) _,
   chunksOf_mem_length cs _,
   chunksOf_length cs hcs _⟩

theorem sanitize_text_replicate_a (n : Nat) :
    sanitize_text (List.replicate n 'a') = List.replicate n 'a' :=
  sanitize_eq_self_of _ (fun c hc => by
    rw [List.eq_of_mem_replicate hc]
    decide)

/-- C2 witness: the claimed examples.  `chunk("a"*1000, 400, 0)` yields
3 chunks of lengths 400, 400, 200, and `chunk("", 400, 0)` yields `[]`. -/
theorem chunk_text_ov0_correct_witness :
    0 < 400 ∧ (sanitize_text (List.replicate 1000 'a')).length < 1001 ∧
    (∃ chunks, chunk_text 1001 (List.replicate 1000 'a') 400 0 = some chunks ∧
      chunks.flatten = sanitize_text (List.replicate 1000 'a') ∧
      (∀ c ∈ chunks, c.length ≤ 400) ∧
      chunks.length = ((sanitize_text (List.replicate 1000 'a')).length + 400 - 1) / 400) ∧
    chunk_text 1001 (List.replicate 1000 'a') 400 0 =
      some (List.replicate 400 'a' :: List.replicate 400 'a' :: List.replicate 200 'a' :: []) ∧
    chunk_text 1001 [] 400 0 = some [] := by
  have hs := sanitize_text_replicate_a 1000
  have hlen : (sanitize_text (List.replicate 1000 'a')).length < 1001 := by
    rw [hs, List.length_replicate]
    omega
  refine ⟨by omega, hlen, chunk_text_ov0_correct (List.replicate 1000 'a') 400 1001
    (by omega) hlen, ?_, ?_⟩
  · rw [chunk_text_ov0_eq (List.replicate 1000 'a') 400 1001 (by omega) hlen, hs]
    have hchunks : chunksOf 400 (List.replicate 1000 'a') =
        List.replicate 400 'a' :: List.replicate 400 'a' :: List.replicate 200 'a' :: [] := by
      rw [chunksOf, if_neg (by simp)]
      rw [List.take_replicate, List.drop_replicate]
      rw [chunksOf, if_neg (by simp)]
      rw [List.take_replicate, List.drop_replicate]
      rw [chunksOf, if_neg (by simp)]
      rw [List.take_replicate, List.drop_replicate]
      rw [chunksOf, if_pos (by simp)]
      norm_num
    rw [hchunks]
  · rw [chunk_text]
    rw [if_pos (by decide)]

/-- C9: the text normalizer is idempotent. -/
theorem sanitize_text_idempotent (x : List Char) :
    sanitize_text (sanitize_text x) = sanitize_text x :=
  sanitize_idem x

/-! ## Claim theorems for the embedding client -/

/-- Case characterization of `create_embeddings`: empty filtered batch
gives `[]`, otherwise the key decides between the configuration error and
the provider's answer on the filtered batch. -/
theorem create_embeddings_eq {α : Type} (apiKey : Option (List Char))
    (provider : List (List Char) → List α) (texts : List (List Char)) :
    create_embeddings apiKey provider texts =
      (if ((texts.map sanitize_text).filter (fun t => !(t.isEmpty))) = [] then Except.ok []
       else match apiKey with
         | none => Except.error EmbedError.missingApiKey
         | some _ =>
           Except.ok (provider ((texts.map sanitize_text).filter (fun t => !(t.isEmpty))))) := by
  rw [create_embeddings.eq_def]
  by_cases ht : texts = []
  · subst ht
    simp
  · rw [if_neg ht]

/-- C5: with a configured key and a provider that returns one vector per
input (the collaborator contract), `create_embeddings` succeeds, its
output length equals the empty-after-sanitize-filtered count, and when no
entry sanitizes to empty it is exactly the provider's index-aligned answer
on the sanitized inputs, of the original length. -/
theorem create_embeddings_aligned {α : Type} (key : List Char)
    (provider : List (List Char) → List α)
    (hprov : ∀ l, (provider l).length = l.length) (texts : List (List Char)) :
    (∃ r, create_embeddings (some key) provider texts = Except.ok r ∧
      r.length = ((texts.map sanitize_text).filter (fun t => !(t.isEmpty))).length) ∧
    ((∀ t ∈ texts, sanitize_text t ≠ []) →
      create_embeddings (some key) provider texts =
        Except.ok (provider (texts.map sanitize_text)) ∧
      (provider (texts.map sanitize_text)).length = texts.length) := by
  constructor
  · rw [create_embeddings_eq]
    by_cases hf : (texts.map sanitize_text).filter (fun t => !(t.isEmpty)) = []
    · rw [if_pos hf, hf]
      exact ⟨[], rfl, rfl⟩
    · rw [if_neg hf]
      exact ⟨_, rfl, hprov _⟩
  · intro hne
    have hfilter : (texts.map sanitize_text).filter (fun t => !(t.isEmpty)) =
        texts.map sanitize_text := by
      apply List.filter_eq_self.mpr
      intro t ht
      obtain ⟨s, hs, rfl⟩ := List.mem_map.mp ht
      simpa [List.isEmpty_iff] using hne s hs
    refine ⟨?_, by rw [hprov, List.length_map]⟩
    rw [create_embeddings_eq, hfilter]
    by_cases hm : texts.map sanitize_text = []
    · rw [if_pos hm, hm]
      have h0 : provider ([] : List (List Char)) = [] :=
        List.length_eq_zero.mp (hprov [])
      rw [h0]
    · rw [if_neg hm]

/-- C10: the empty-input and all-empty-after-sanitize early returns fire
before the client is obtained, so no configuration error is raised and the
provider plays no role; the missing-credential error occurs only when some
input survives the filter. -/
theorem create_embeddings_no_key_safe {α : Type} (provider : List (List Char) → List α)
    (texts : List (List Char)) :
    ((∀ t ∈ texts, sanitize_text t = []) →
      ∀ apiKey, create_embeddings apiKey provider texts = Except.ok []) ∧
    (∀ e, create_embeddings (α := α) none provider texts = Except.error e →
      ∃ t ∈ texts, sanitize_text t ≠ []) := by
  constructor
  · intro hall apiKey
    rw [create_embeddings_eq]
    have hfilter : (texts.map sanitize_text).filter (fun t => !(t.isEmpty)) = [] := by
      rw [List.filter_eq_nil_iff]
      intro t ht'
      obtain ⟨s, hs, rfl⟩ := List.mem_map.mp ht'
      simp [List.isEmpty_iff, hall s hs]
    rw [if_pos hfilter]
  · intro e he
    rw [create_embeddings_eq] at he
    by_cases hf : (texts.map sanitize_text).filter (fun t => !(t.isEmpty)) = []
    · rw [if_pos hf] at he
      exact Except.noConfusion he
    · rcases hne : (texts.map sanitize_text).filter (fun t => !(t.isEmpty)) with _ | ⟨t, ts⟩
      · exact absurd hne hf
      · have htmem : t ∈ (texts.map sanitize_text).filter (fun t => !(t.isEmpty)) := by
          rw [hne]
          exact List.mem_cons_self t ts
        have hmf := List.mem_filter.mp htmem
        obtain ⟨s, hs, hst⟩ := List.mem_map.mp hmf.1
        refine ⟨s, hs, ?_⟩
        rw [hst]
        simpa [List.isEmpty_iff] using hmf.2

/-! ## Claim theorems for the format extractor -/

/-- A DOCX whose raw-XML extraction raises (and whose markdown conversion
is unavailable), with a lenient byte decode of two letters. -/
def docxEnvFail : ExtractEnv where
  pypdfAvailable := true
  mdAvailable := false
  decodeReplace := []
  decodeIgnore := 'h' :: 'i' :: []
  pypdfPages := none
  docxXml := DocxXmlOutcome.raised
  mammothHtml := none
  stripDataImgs := id
  markdownifyDocx := id
  markdownifyATX := id
  stripTags := id
  plumberPages := none
  plumberConvert := none

/-- C4 counterexample: an internal failure that does NOT degrade to empty
text.  The `except` path of `extract_text_from_docx`
(`text_processor.py` line 189-191) returns the sanitized lenient byte
decode `file_content.decode('utf-8', errors='ignore')` — here the
nonempty text `"hi"` — so the claim's "any internal failure degrades to
returning empty text" is false on the code. -/
theorem extract_docx_failure_nonempty :
    docxEnvFail.docxXml = DocxXmlOutcome.raised ∧
    extract_text_from_file docxEnvFail mimeDocx [] = 'h' :: 'i' :: [] ∧
    ¬('h' :: 'i' :: [] = ([] : List Char)) :=
  ⟨rfl, by decide, by decide⟩

/-- C4 (amended): every branch of the extractor is total over the modelled
library-call outcomes (any internal failure is an environment value, never
an escape), and the returned text has passed through `sanitize_text`, so
it is a fixed point of the normalizer.  A failed PDF library call degrades
to empty text, but a raised DOCX XML parse (with the markdown conversion
unavailable) degrades to the sanitized lenient byte decode, which need not
be empty. -/
theorem extract_text_from_file_normalized (env : ExtractEnv) (mime fileName : List Char) :
    sanitize_text (extract_text_from_file env mime fileName) =
      extract_text_from_file env mime fileName ∧
    extract_text_from_file { env with pypdfPages := none } mimePdf fileName = [] ∧
    extract_text_from_file
        { env with mdAvailable := false, docxXml := DocxXmlOutcome.raised } mimeDocx fileName =
      sanitize_text env.decodeIgnore := by
  refine ⟨?_, ?_, ?_⟩
  · rw [extract_text_from_file]
    exact sanitize_idem _
  · rw [extract_text_from_file, if_pos (by decide)]
    rw [extract_text_from_pdf]
    cases h : ({ env with pypdfPages := none } : ExtractEnv).pypdfAvailable <;> rfl
  · have hconv : convert_to_markdown_with_links
        { env with mdAvailable := false, docxXml := DocxXmlOutcome.raised } mimeDocx fileName =
        none := rfl
    rw [extract_text_from_file, if_neg (by decide), if_pos (Or.inl rfl), hconv]
    exact sanitize_idem _

/-- A PDF whose first sampled page has 150 characters of text (so the
text-based detection succeeds), whose preserve-links conversion yields
those 150 characters, and whose plain pypdf extraction yields the distinct
five-character text. -/
def pdfEnvRich : ExtractEnv where
  pypdfAvailable := true
  mdAvailable := true
  decodeReplace := []
  decodeIgnore := []
  pypdfPages := some (List.replicate 5 'p' :: [])
  docxXml := DocxXmlOutcome.noDocumentXml
  mammothHtml := none
  stripDataImgs := id
  markdownifyDocx := id
  markdownifyATX := id
  stripTags := id
  plumberPages := some (List.replicate 150 'x' :: [])
  plumberConvert := some ((List.replicate 150 'x' :: []), [])

set_option maxRecDepth 100000 in
/-- C8 counterexample: for this PDF the preserve-links path is available
(`MARKDOWN_CONVERSION_AVAILABLE`), the text-based detection succeeds, and
the markdown conversion produces a (distinct) result — yet
`extract_text_from_file` returns the plain sequential page extraction:
the extractor never routes PDFs through the markdown conversion. -/
theorem extract_pdf_ignores_markdown_path :
    pdfEnvRich.mdAvailable = true ∧
    is_text_based_pdf pdfEnvRich = true ∧
    convert_to_markdown_with_links pdfEnvRich mimePdf [] = some (List.replicate 150 'x') ∧
    extract_text_from_file pdfEnvRich mimePdf [] = List.replicate 5 'p' ∧
    ¬(List.replicate 5 'p' = (List.replicate 150 'x' : List Char)) := by
  refine ⟨rfl, by decide, by decide, by decide, by decide⟩

/-- C8 (amended): `extract_text_from_file` on a PDF content-type always
returns the sanitized plain sequential page-text extraction
(single-space-joined); the preserve-links conversion with its
text-bearing gate exists in `convert_to_markdown_with_links` but is only
consulted there (the extractor routes only DOCX through it). -/
theorem extract_pdf_plain_path (env : ExtractEnv) (mime fileName : List Char)
    (hmime : hasSubstring mime mimePdf = true)
    (hname : extDocx.isSuffixOf fileName = false) :
    extract_text_from_file env mime fileName = sanitize_text (extract_text_from_pdf env) ∧
    convert_to_markdown_with_links env mimePdf fileName =
      (if env.mdAvailable = true ∧ is_text_based_pdf env = true
       then convert_pdf_to_markdown env else none) := by
  constructor
  · rw [extract_text_from_file, if_pos hmime]
  · rw [convert_to_markdown_with_links]
    by_cases hmd : env.mdAvailable
    · rw [if_neg (by simp [hmd])]
      rw [if_neg (fun h => by
        rcases h with h | h
        · exact absurd h (by decide)
        · simp [hname] at h)]
      rw [if_pos (Or.inl rfl)]
      by_cases htb : is_text_based_pdf env
      · rw [if_pos htb, if_pos ⟨hmd, htb⟩]
      · rw [if_neg htb, if_neg (by simp [htb])]
    · rw [if_pos (by simp [hmd])]
      rw [if_neg (by simp [hmd])]

/-! ## Database lemmas -/

theorem filter_of_filter_nil {β : Type} (p q : β → Bool) (l : List β)
    (h : l.filter p = []) : (l.filter q).filter p = [] := by
  rw [List.filter_eq_nil_iff] at h ⊢
  exact fun a ha => h a (List.mem_filter.mp ha).1

theorem delete_docs_filter {α : Type} (fid : List Char) (st : DBState α) :
    ((delete_document_by_file_id fid st).2).documents.filter
      (fun r => (r.file_id = fid : Bool)) = [] := by
  rw [delete_document_by_file_id]
  rw [List.filter_eq_nil_iff]
  intro r hr
  have := (List.mem_filter.mp hr).2
  simp at this
  simp [this]

theorem insert_meta_fst {α : Type} (fid title url : List Char) (schema : Option (List Char))
    (st : DBState α) :
    (insert_or_update_document_metadata fid title url schema st).1 = true := by
  rw [insert_or_update_document_metadata]
  split <;> rfl

theorem insert_meta_docs {α : Type} (fid title url : List Char) (schema : Option (List Char))
    (st : DBState α) :
    (insert_or_update_document_metadata fid title url schema st).2.documents =
      st.documents := by
  rw [insert_or_update_document_metadata]
  split <;> rfl

theorem insert_meta_has_fid {α : Type} (fid title url : List Char) (schema : Option (List Char))
    (st : DBState α) :
    (insert_or_update_document_metadata fid title url schema st).2.document_metadata.any
      (fun m => m.id = fid) = true := by
  rw [insert_or_update_document_metadata]
  by_cases h : st.document_metadata.any (fun m => m.id = fid)
  · rw [if_pos h]
    rw [List.any_eq_true] at h ⊢
    obtain ⟨m, hm, hmid⟩ := h
    refine ⟨if m.id = fid then
        { id := fid, title := title, url := url
          schema := match schema with | some s => some s | none => m.schema }
      else m, List.mem_map_of_mem _ hm, ?_⟩
    simp at hmid
    rw [if_pos hmid]
    simp
  · rw [if_neg h]
    simp

theorem buildChunkRows_file_id {α : Type} (chunks : List (List Char)) (embeddings : List α)
    (fid url title : List Char) (mime fc : Option (List Char)) :
    ∀ r ∈ buildChunkRows chunks embeddings fid url title mime fc, r.file_id = fid := by
  intro r hr
  rw [buildChunkRows] at hr
  obtain ⟨p, _, rfl⟩ := List.mem_map.mp hr
  rfl

theorem buildChunkRows_filter {α : Type} (chunks : List (List Char)) (embeddings : List α)
    (fid url title : List Char) (mime fc : Option (List Char)) :
    (buildChunkRows chunks embeddings fid url title mime fc).filter
      (fun r => (r.file_id = fid : Bool)) =
      buildChunkRows chunks embeddings fid url title mime fc :=
  List.filter_eq_self.mpr (fun r hr => by
    simp [buildChunkRows_file_id chunks embeddings fid url title mime fc r hr])

theorem buildChunkRows_map_index {α : Type} (chunks : List (List Char)) (embeddings : List α)
    (fid url title : List Char) (mime fc : Option (List Char)) :
    (buildChunkRows chunks embeddings fid url title mime fc).map ChunkRow.chunk_index =
      List.range (chunks.zip embeddings).length := by
  rw [buildChunkRows, List.map_map]
  have : (ChunkRow.chunk_index (α := α) ∘ fun p : Nat × (List Char × α) =>
      { content := p.2.1, file_id := fid, file_url := url, file_title := title
        mime_type := mime, chunk_index := p.1, file_contents := fc
        embedding := p.2.2 }) = Prod.fst := rfl
  rw [this, List.enum_map_fst]

theorem buildChunkRows_length {α : Type} (chunks : List (List Char)) (embeddings : List α)
    (fid url title : List Char) (mime fc : Option (List Char)) :
    (buildChunkRows chunks embeddings fid url title mime fc).length =
      (chunks.zip embeddings).length := by
  rw [buildChunkRows, List.length_map, List.enum_length]

/-- The chunk rows a pipeline run deposits for its file id — a function of
the run's own inputs only, not of the starting database state.
Derived characterization used to state the full-replace property. -/
def processNewRows {α : Type} (apiKey : Option (List Char))
    (provider : List (List Char) → List α) (fuel : Nat)
    (fileContent : Option (List Char)) (text fileId fileUrl fileTitle : List Char)
    (mime : Option (List Char)) (cs ov : Nat) : List (ChunkRow α) :=
  match chunk_text fuel text cs ov with
  | none => []
  | some chunks =>
    if chunks = [] then []
    else
      match create_embeddings apiKey provider chunks with
      | Except.error _ => []
      | Except.ok embeddings =>
        if embeddings.isEmpty then []
        else if chunks.length ≠ embeddings.length then []
        else buildChunkRows chunks embeddings fileId fileUrl fileTitle mime
          (if isImageMime mime then fileContent else none)

theorem process_file_docs_spec {α : Type} (apiKey : Option (List Char))
    (provider : List (List Char) → List α) (fuel : Nat)
    (fileContent : Option (List Char)) (text fileId fileUrl fileTitle : List Char)
    (mime : Option (List Char)) (cs ov : Nat) (st : DBState α) (b : Bool) (st' : DBState α)
    (h : process_file_for_rag apiKey provider fuel fileContent text fileId fileUrl fileTitle
      mime cs ov st = some (b, st')) :
    st'.documents.filter (fun r => (r.file_id = fileId : Bool)) =
      processNewRows apiKey provider fuel fileContent text fileId fileUrl fileTitle mime cs ov ∧
    (b = true →
      (st'.documents.filter (fun r => (r.file_id = fileId : Bool))).map ChunkRow.chunk_index =
        List.range ((st'.documents.filter (fun r => (r.file_id = fileId : Bool))).length)) := by
  have hmetadocs : (insert_or_update_document_metadata fileId fileTitle fileUrl none
      (delete_document_by_file_id fileId st).2).2.documents.filter
      (fun r => (r.file_id = fileId : Bool)) = [] := by
    rw [insert_meta_docs]
    exact delete_docs_filter fileId st
  rw [process_file_for_rag] at h
  rw [if_neg (by simp [insert_meta_fst])] at h
  rw [processNewRows]
  split at h
  · exact Option.noConfusion h
  · rename_i chunks hchunks
    split at h
    · rename_i hempty
      rw [Option.some_inj] at h
      injection h with h1 h2
      subst h1
      subst h2
      rw [if_pos hempty]
      exact ⟨hmetadocs, fun hb => Bool.noConfusion hb⟩
    · rename_i hnempty
      split at h
      · rw [Option.some_inj] at h
        injection h with h1 h2
        subst h1
        subst h2
        rw [if_neg hnempty]
        exact ⟨hmetadocs, fun hb => Bool.noConfusion hb⟩
      · rename_i embeddings hembed
        split at h
        · rename_i hisemp
          rw [Option.some_inj] at h
          injection h with h1 h2
          subst h1
          subst h2
          rw [if_neg hnempty, if_pos hisemp]
          exact ⟨hmetadocs, fun hb => Bool.noConfusion hb⟩
        · rename_i hisemp
          have hins : ∀ fc,
              insert_document_chunks chunks embeddings fileId fileUrl fileTitle mime fc
                (insert_or_update_document_metadata fileId fileTitle fileUrl none
                  (delete_document_by_file_id fileId st).2).2 = (b, st') →
              st'.documents.filter (fun r => (r.file_id = fileId : Bool)) =
                (if chunks.length ≠ embeddings.length then []
                 else buildChunkRows chunks embeddings fileId fileUrl fileTitle mime fc) ∧
              (b = true →
                (st'.documents.filter (fun r => (r.file_id = fileId : Bool))).map
                  ChunkRow.chunk_index =
                List.range
                  ((st'.documents.filter (fun r => (r.file_id = fileId : Bool))).length)) := by
            intro fc hic
            rw [insert_document_chunks] at hic
            split at hic
            · rename_i hlen
              injection hic with h1 h2
              subst h1
              subst h2
              rw [if_pos hlen]
              exact ⟨hmetadocs, fun hb => Bool.noConfusion hb⟩
            · rename_i hlen
              injection hic with h1 h2
              subst h1
              subst h2
              rw [if_neg hlen]
              have hfilter : (((insert_or_update_document_metadata fileId fileTitle fileUrl none
                  (delete_document_by_file_id fileId st).2).2.documents ++
                  buildChunkRows chunks embeddings fileId fileUrl fileTitle mime fc).filter
                  (fun r => (r.file_id = fileId : Bool))) =
                  buildChunkRows chunks embeddings fileId fileUrl fileTitle mime fc := by
                rw [List.filter_append, hmetadocs, buildChunkRows_filter]
                rfl
              refine ⟨hfilter, fun _ => ?_⟩
              rw [hfilter, buildChunkRows_map_index, buildChunkRows_length]
          split at h
          · rename_i himg
            rw [if_neg hnempty, if_neg hisemp, if_pos himg]
            rw [Option.some_inj] at h
            exact hins fileContent h
          · rename_i himg
            rw [if_neg hnempty, if_neg hisemp, if_neg himg]
            rw [Option.some_inj] at h
            exact hins none h

/-! ## Claim theorems for the processing pipeline -/

/-- C3: the chunk rows stored for a file id after a run are a function of
that run's own inputs only (the run deletes every existing row for the id
before inserting) — so two runs with different content leave exactly the
second run's rows, never a union — and any successful run leaves
`chunk_index` values forming the contiguous range `0..N-1`. -/
theorem process_file_full_replace {α : Type} (apiKey : Option (List Char))
    (provider : List (List Char) → List α) (fuel : Nat)
    (fc1 fc2 : Option (List Char)) (text1 text2 fid url title : List Char)
    (mime : Option (List Char)) (cs ov : Nat) (st st' : DBState α)
    (r1 r2 r2' : Bool) (st1 st2 st2' : DBState α)
    (_h1 : process_file_for_rag apiKey provider fuel fc1 text1 fid url title mime cs ov st =
      some (r1, st1))
    (h2 : process_file_for_rag apiKey provider fuel fc2 text2 fid url title mime cs ov st1 =
      some (r2, st2))
    (h2' : process_file_for_rag apiKey provider fuel fc2 text2 fid url title mime cs ov st' =
      some (r2', st2')) :
    st2.documents.filter (fun r => (r.file_id = fid : Bool)) =
      st2'.documents.filter (fun r => (r.file_id = fid : Bool)) ∧
    (r2 = true →
      (st2.documents.filter (fun r => (r.file_id = fid : Bool))).map ChunkRow.chunk_index =
        List.range ((st2.documents.filter (fun r => (r.file_id = fid : Bool))).length)) := by
  obtain ⟨ha, hb⟩ := process_file_docs_spec apiKey provider fuel fc2 text2 fid url title
    mime cs ov st1 r2 st2 h2
  obtain ⟨ha', _⟩ := process_file_docs_spec apiKey provider fuel fc2 text2 fid url title
    mime cs ov st' r2' st2' h2'
  exact ⟨ha.trans ha'.symm, hb⟩

def wProvider : List (List Char) → List Nat := fun l => l.map (fun _ => 0)
def wSt0 : DBState Nat := ⟨[], [], []⟩
def wMetaRow : MetaRow := ⟨'f' :: [], [], [], none⟩
def wRowA : ChunkRow Nat := ⟨'a' :: [], 'f' :: [], [], [], none, 0, none, 0⟩
def wRowB : ChunkRow Nat := ⟨'b' :: [], 'f' :: [], [], [], none, 0, none, 0⟩
def wStA : DBState Nat := ⟨wRowA :: [], [], wMetaRow :: []⟩
def wStB : DBState Nat := ⟨wRowB :: [], [], wMetaRow :: []⟩

/-- C3 witness: two concrete runs on the same file id with contents `"a"`
then `"b"`, from the empty store and from the first run's store. -/
theorem process_file_full_replace_witness :
    process_file_for_rag (some ('k' :: [])) wProvider 10 none ('a' :: []) ('f' :: [])
      [] [] none 400 0 wSt0 = some (true, wStA) ∧
    process_file_for_rag (some ('k' :: [])) wProvider 10 none ('b' :: []) ('f' :: [])
      [] [] none 400 0 wStA = some (true, wStB) ∧
    process_file_for_rag (some ('k' :: [])) wProvider 10 none ('b' :: []) ('f' :: [])
      [] [] none 400 0 wSt0 = some (true, wStB) ∧
    (wStB.documents.filter (fun r => (r.file_id = ('f' :: []) : Bool)) =
      wStB.documents.filter (fun r => (r.file_id = ('f' :: []) : Bool)) ∧
    (true = true →
      (wStB.documents.filter (fun r => (r.file_id = ('f' :: []) : Bool))).map
        ChunkRow.chunk_index =
      List.range
        ((wStB.documents.filter (fun r => (r.file_id = ('f' :: []) : Bool))).length))) :=
  ⟨rfl, rfl, rfl,
   process_file_full_replace (some ('k' :: [])) wProvider 10 none none
     ('a' :: []) ('b' :: []) ('f' :: []) [] [] none 400 0 wSt0 wSt0
     true true true wStA wStB wStB rfl rfl rfl⟩

/-- C6: when chunking yields zero chunks, or embedding yields zero
vectors, the pipeline reports failure, the metadata row is already
upserted (the accepted inconsistency window), and the chunk state for the
file id is what the initial delete left: no rows at all, in particular no
partially-written new chunks. -/
theorem process_file_aborts_on_empty {α : Type} (apiKey : Option (List Char))
    (provider : List (List Char) → List α) (fuel : Nat)
    (fc : Option (List Char)) (text fid url title : List Char)
    (mime : Option (List Char)) (cs ov : Nat) (st : DBState α) (chunksV : List (List Char))
    (hchunk : chunk_text fuel text cs ov = some chunksV)
    (hcase : chunksV = [] ∨ create_embeddings apiKey provider chunksV = Except.ok []) :
    ∃ st', process_file_for_rag apiKey provider fuel fc text fid url title mime cs ov st =
        some (false, st') ∧
      st'.documents.filter (fun r => (r.file_id = fid : Bool)) = [] ∧
      st'.document_metadata.any (fun m => m.id = fid) = true := by
  refine ⟨(insert_or_update_document_metadata fid title url none
    (delete_document_by_file_id fid st).2).2, ?_, ?_, insert_meta_has_fid fid title url none _⟩
  · rw [process_file_for_rag]
    rw [if_neg (by simp [insert_meta_fst])]
    split
    · rename_i hnone
      rw [hnone] at hchunk
      exact Option.noConfusion hchunk
    · rename_i chunks hsome
      rw [hsome] at hchunk
      injection hchunk with hcv
      subst hcv
      by_cases hv : chunks = []
      · rw [if_pos hv]
      · rw [if_neg hv]
        rcases hcase with h | h
        · exact absurd h hv
        · rw [h]
          rfl
  · rw [insert_meta_docs]
    exact delete_docs_filter fid st

/-- C6 witness: the empty text chunks to zero chunks; the run fails and
leaves only the metadata row. -/
theorem process_file_aborts_on_empty_witness :
    chunk_text 5 [] 400 0 = some [] ∧
    ∃ st', process_file_for_rag (some ('k' :: [])) wProvider 5 none [] ('f' :: [])
        [] [] none 400 0 wSt0 = some (false, st') ∧
      st'.documents.filter (fun r => (r.file_id = ('f' :: []) : Bool)) = [] ∧
      st'.document_metadata.any (fun m => m.id = ('f' :: [])) = true :=
  ⟨rfl, process_file_aborts_on_empty (some ('k' :: [])) wProvider 5 none [] ('f' :: [])
    [] [] none 400 0 wSt0 [] rfl (Or.inl rfl)⟩

/-! ## Watcher lemmas: trashed-file cleanup -/

/-- No record of any of the three kinds is stored for the file id. -/
def noRecords {α : Type} (fid : List Char) (db : DBState α) : Prop :=
  db.documents.filter (fun r => (r.file_id = fid : Bool)) = [] ∧
  db.document_rows.filter (fun r => (r.1 = fid : Bool)) = [] ∧
  db.document_metadata.filter (fun m => (m.id = fid : Bool)) = []

theorem filter_neg_filter {β : Type} (p : β → Bool) (l : List β) :
    (l.filter (fun x => !(p x))).filter p = [] := by
  rw [List.filter_eq_nil_iff]
  intro a ha
  have h2 := (List.mem_filter.mp ha).2
  simp at h2
  simp [h2]

theorem delete_fst {α : Type} (fid : List Char) (st : DBState α) :
    (delete_document_by_file_id fid st).1 = true := rfl

theorem delete_noRecords {α : Type} (fid : List Char) (st : DBState α) :
    noRecords fid (delete_document_by_file_id fid st).2 :=
  ⟨filter_neg_filter _ _, filter_neg_filter _ _, filter_neg_filter _ _⟩

theorem noRecords_delete_mono {α : Type} (g fid : List Char) (st : DBState α)
    (h : noRecords g st) : noRecords g (delete_document_by_file_id fid st).2 :=
  ⟨filter_of_filter_nil _ _ _ h.1, filter_of_filter_nil _ _ _ h.2.1,
   filter_of_filter_nil _ _ _ h.2.2⟩

theorem check_eq_false_of_noRecords {α : Type} (fid : List Char) (db : DBState α)
    (h : noRecords fid db) : check_document_exists fid db = false := by
  rw [check_document_exists]
  have h1 : db.documents.any (fun r => r.file_id = fid) = false := by
    rw [List.any_eq_false]
    intro r hr
    have := List.filter_eq_nil_iff.mp h.1 r hr
    simpa using this
  have h2 : db.document_metadata.any (fun m => m.id = fid) = false := by
    rw [List.any_eq_false]
    intro m hm
    have := List.filter_eq_nil_iff.mp h.2.2 m hm
    simpa using this
  rw [h1, h2]
  rfl

theorem check_mono_delete {α : Type} (g fid : List Char) (st : DBState α)
    (h : check_document_exists g (delete_document_by_file_id fid st).2 = true) :
    check_document_exists g st = true := by
  rw [check_document_exists] at h ⊢
  rcases Bool.or_eq_true_iff.mp h with h | h
  · refine Bool.or_eq_true_iff.mpr (Or.inl ?_)
    rw [List.any_eq_true] at h ⊢
    obtain ⟨r, hr, hp⟩ := h
    exact ⟨r, (List.mem_filter.mp hr).1, hp⟩
  · refine Bool.or_eq_true_iff.mpr (Or.inr ?_)
    rw [List.any_eq_true] at h ⊢
    obtain ⟨m, hm, hp⟩ := h
    exact ⟨m, (List.mem_filter.mp hm).1, hp⟩

theorem cleanupLoop_drive {α : Type} :
    ∀ (ids : List (List Char)) (w : WatcherState α) (c e : Nat),
      ((cleanupLoop ids w c e).2).driveTrashed = w.driveTrashed := by
  intro ids
  induction ids with
  | nil => intro w c e; rfl
  | cons fid rest ih =>
    intro w c e
    rw [cleanupLoop, if_pos (delete_fst fid w.db)]
    exact ih _ _ _

theorem cleanupLoop_check_mono {α : Type} :
    ∀ (ids : List (List Char)) (w : WatcherState α) (c e : Nat) (g : List Char),
      check_document_exists g ((cleanupLoop ids w c e).2).db = true →
      check_document_exists g w.db = true := by
  intro ids
  induction ids with
  | nil => intro w c e g h; exact h
  | cons fid rest ih =>
    intro w c e g h
    rw [cleanupLoop, if_pos (delete_fst fid w.db)] at h
    exact check_mono_delete g fid w.db (ih _ _ _ g h)

theorem cleanupLoop_noRecords_pres {α : Type} :
    ∀ (ids : List (List Char)) (w : WatcherState α) (c e : Nat) (g : List Char),
      noRecords g w.db → noRecords g ((cleanupLoop ids w c e).2).db := by
  intro ids
  induction ids with
  | nil => intro w c e g h; exact h
  | cons fid rest ih =>
    intro w c e g h
    rw [cleanupLoop, if_pos (delete_fst fid w.db)]
    exact ih _ _ _ g (noRecords_delete_mono g fid w.db h)

theorem cleanupLoop_known_pres {α : Type} :
    ∀ (ids : List (List Char)) (w : WatcherState α) (c e : Nat) (g : List Char),
      g ∉ w.known_files.map Prod.fst →
      g ∉ ((cleanupLoop ids w c e).2).known_files.map Prod.fst := by
  intro ids
  induction ids with
  | nil => intro w c e g h; exact h
  | cons fid rest ih =>
    intro w c e g h
    rw [cleanupLoop, if_pos (delete_fst fid w.db)]
    refine ih _ _ _ g ?_
    intro hmem
    obtain ⟨p, hp, hpg⟩ := List.mem_map.mp hmem
    exact h (List.mem_map.mpr ⟨p, (List.mem_filter.mp hp).1, hpg⟩)

theorem cleanupLoop_target {α : Type} :
    ∀ (ids : List (List Char)) (w : WatcherState α) (c e : Nat) (fid : List Char),
      fid ∈ ids →
      noRecords fid ((cleanupLoop ids w c e).2).db ∧
      fid ∉ ((cleanupLoop ids w c e).2).known_files.map Prod.fst := by
  intro ids
  induction ids with
  | nil => intro w c e fid h; exact absurd h (List.not_mem_nil fid)
  | cons a rest ih =>
    intro w c e fid h
    rw [cleanupLoop, if_pos (delete_fst a w.db)]
    rcases List.mem_cons.mp h with rfl | hrest
    · constructor
      · exact cleanupLoop_noRecords_pres rest _ _ _ fid (delete_noRecords fid w.db)
      · refine cleanupLoop_known_pres rest _ _ _ fid ?_
        intro hmem
        obtain ⟨p, hp, hpg⟩ := List.mem_map.mp hmem
        have := (List.mem_filter.mp hp).2
        rw [hpg] at this
        simp at this
    · exact ih _ _ _ fid hrest

theorem detect_after_cleanup_nil {α : Type} (w : WatcherState α) :
    detect_trashed_files ((cleanup_trashed_files w).2) = [] := by
  rw [cleanup_trashed_files]
  by_cases hids : detect_trashed_files w = []
  · rw [if_pos hids]
    exact hids
  · rw [if_neg hids]
    rw [detect_trashed_files, cleanupLoop_drive]
    rw [List.filter_eq_nil_iff]
    intro g hg
    by_cases hcheck : check_document_exists g w.db = true
    · have hgid : g ∈ detect_trashed_files w := by
        rw [detect_trashed_files]
        exact List.mem_filter.mpr ⟨hg, hcheck⟩
      have := (cleanupLoop_target (detect_trashed_files w) w 0 0 g hgid).1
      simp [check_eq_false_of_noRecords g _ this]
    · intro habs
      exact hcheck (cleanupLoop_check_mono (detect_trashed_files w) w 0 0 g habs)

/-! ## Claim theorem for trashed-file cleanup -/

/-- C7: cleaning up removes, for every detected trashed-and-stored file id,
all three record kinds and the `known_files` cache entry; and running the
cleanup again on the resulting state changes nothing and reports zero
cleaned (and zero errors). -/
theorem cleanup_trashed_files_correct {α : Type} (w : WatcherState α) :
    (∀ fid ∈ detect_trashed_files w,
      noRecords fid ((cleanup_trashed_files w).2).db ∧
      fid ∉ ((cleanup_trashed_files w).2).known_files.map Prod.fst) ∧
    cleanup_trashed_files ((cleanup_trashed_files w).2) =
      ((0, 0), (cleanup_trashed_files w).2) := by
  constructor
  · intro fid hfid
    rw [cleanup_trashed_files]
    have hne : detect_trashed_files w ≠ [] := by
      intro h
      rw [h] at hfid
      exact (List.not_mem_nil fid) hfid
    rw [if_neg hne]
    exact cleanupLoop_target _ _ _ _ fid hfid
  · rw [cleanup_trashed_files, if_pos (detect_after_cleanup_nil w)]

def wWatcher : WatcherState Nat :=
  ⟨wStA, (('f' :: []), []) :: [], (('f' :: []), []) :: []⟩

/-- C7 witness: a store holding one chunk row and one metadata row for a
file id that the Drive listing reports trashed. -/
theorem cleanup_trashed_files_correct_witness :
    ('f' :: []) ∈ detect_trashed_files wWatcher ∧
    (noRecords ('f' :: []) ((cleanup_trashed_files wWatcher).2).db ∧
      ('f' :: []) ∉ ((cleanup_trashed_files wWatcher).2).known_files.map Prod.fst) ∧
    cleanup_trashed_files ((cleanup_trashed_files wWatcher).2) =
      ((0, 0), (cleanup_trashed_files wWatcher).2) := by
  have hmem : ('f' :: []) ∈ detect_trashed_files wWatcher := by
    rw [detect_trashed_files]
    refine List.mem_filter.mpr ⟨by simp [wWatcher], by rfl⟩
  obtain ⟨h1, h2⟩ := cleanup_trashed_files_correct wWatcher
  exact ⟨hmem, h1 _ hmem, h2⟩

/-! ## Remaining witnesses -/

/-- C5 witness: a one-vector-per-text provider on the singleton batch. -/
theorem create_embeddings_aligned_witness :
    (∀ l, (wProvider l).length = l.length) ∧
    ((∃ r, create_embeddings (some ('k' :: [])) wProvider (('a' :: []) :: []) = Except.ok r ∧
      r.length = (((('a' :: []) :: []).map sanitize_text).filter
        (fun t => !(t.isEmpty))).length) ∧
    ((∀ t ∈ (('a' :: []) :: []), sanitize_text t ≠ []) →
      create_embeddings (some ('k' :: [])) wProvider (('a' :: []) :: []) =
        Except.ok (wProvider ((('a' :: []) :: []).map sanitize_text)) ∧
      (wProvider ((('a' :: []) :: []).map sanitize_text)).length =
        (('a' :: []) :: []).length)) :=
  ⟨fun l => by rw [wProvider, List.length_map],
   create_embeddings_aligned ('k' :: []) wProvider
     (fun l => by rw [wProvider, List.length_map]) (('a' :: []) :: [])⟩

/-- C10 witness: a batch whose single entry sanitizes to empty, run with
no credential configured, still yields `[]` with no error. -/
theorem create_embeddings_no_key_safe_witness :
    create_embeddings none wProvider (([] : List Char) :: []) = Except.ok [] :=
  (create_embeddings_no_key_safe wProvider (([] : List Char) :: [])).1
    (fun t ht => by
      rcases List.mem_singleton.mp ht with rfl
      rfl) none

/-- C8 witness for the amended claim, at the rich-PDF environment. -/
theorem extract_pdf_plain_path_witness :
    hasSubstring mimePdf mimePdf = true ∧
    extDocx.isSuffixOf ([] : List Char) = false ∧
    (extract_text_from_file pdfEnvRich mimePdf [] =
        sanitize_text (extract_text_from_pdf pdfEnvRich) ∧
      convert_to_markdown_with_links pdfEnvRich mimePdf [] =
        (if pdfEnvRich.mdAvailable = true ∧ is_text_based_pdf pdfEnvRich = true
         then convert_pdf_to_markdown pdfEnvRich else none)) :=
  ⟨by decide, by decide,
   extract_pdf_plain_path pdfEnvRich mimePdf [] (by decide) (by decide)⟩
